import Mathlib

/-!
Shallow embedding of `src/main.py` (ose-auto-calc): an ICS teaching-hours
calculator. The embedding covers the event classifier
(`extract_code_from_description`, `extract_category_from_title`), the
duration calculator (`calculate_duration_hours`), the past-only temporal
filter, the per-event processing loop, the aggregator, number formatting
(`format_number`) and the finalization pass that produces the report rows
and grand totals. Python floats are modelled as rationals (`ℚ`); Python
`datetime`/`date` values as a tagged union `TimeValue`; Python dicts as
association lists preserving insertion order; raised exceptions as
`Except`. String operations are defined over `List Char` so that every
definition evaluates by `decide`/`rfl`.
-/

/-- Characters matched by Python's `\s` / `str.strip()` (ASCII whitespace). -/
def pyIsSpace (c : Char) : Bool :=
  c = ' ' || c = '\t' || c = '\n' || c = '\r' || c = '\x0b' || c = '\x0c'

/-- Python `str.strip()` on a character list: drop leading and trailing
whitespace. -/
def pystripL (l : List Char) : List Char :=
  ((l.dropWhile pyIsSpace).reverse.dropWhile pyIsSpace).reverse

/-- Python `str.strip()`. -/
def pystrip (s : String) : String := ⟨pystripL s.data⟩

/-- Python `str.rstrip(c)`: drop all trailing occurrences of `c`. -/
def pyrstrip (s : String) (c : Char) : String :=
  ⟨(s.data.reverse.dropWhile (· = c)).reverse⟩

/-- Python `str.split(sep)` on character lists: split at every separator,
keeping empty pieces (`"".split('\n') == ['']`). -/
def pySplit (sep : Char) : List Char → List (List Char)
  | [] => [[]]
  | x :: xs =>
    if x = sep then [] :: pySplit sep xs
    else
      match pySplit sep xs with
      | [] => [[x]]
      | y :: ys => (x :: y) :: ys

/-- Tests whether `needle` starts `hay`, character by character. -/
def isPrefixChars : List Char → List Char → Bool
  | [], _ => true
  | _ :: _, [] => false
  | a :: as, b :: bs => a = b && isPrefixChars as bs

/-- Python's substring containment `needle in hay`. -/
def containsSub (needle : List Char) : List Char → Bool
  | [] => needle.isEmpty
  | c :: cs => isPrefixChars needle (c :: cs) || containsSub needle cs

/-- Character class `[A-Z0-9]` of the code regex. -/
def isCodeChar (c : Char) : Bool :=
  ('A' ≤ c && c ≤ 'Z') || ('0' ≤ c && c ≤ '9')

/-- The regex `^([A-Z0-9]+)\s*-\s*(.+)$` from `extract_code_from_description`
(src/main.py line 53), applied to the already-stripped fifth line. Each
quantifier is greedy; since the classes `[A-Z0-9]`, `\s` and the literal `-`
are pairwise disjoint, maximal munch is equivalent to the backtracking
search, and `(.+)` takes everything to the end of the line (the line
contains no newline). Returns `(group 1, group 2)` on match. -/
def match_code_line (s : List Char) : Option (String × String) :=
  let code := s.takeWhile isCodeChar
  let rest := s.dropWhile isCodeChar
  if code.isEmpty then none
  else
    match rest.dropWhile pyIsSpace with
    | '-' :: rest2 =>
      let name := rest2.dropWhile pyIsSpace
      if name.isEmpty then none else some (⟨code⟩, ⟨name⟩)
    | _ => none

/-- src/main.py lines 42-56, `extract_code_from_description`: empty
description fails; split on newline; fewer than 5 lines fails; otherwise
match the stripped line at index 4 against the code regex and return
`(group 1, group2.strip())`. Python's `(None, None)` / value pair is
modelled as `Option (String × String)`. -/
def extract_code_from_description (description : String) : Option (String × String) :=
  if description = "" then none
  else
    let lines := pySplit '\n' description.data
    if lines.length < 5 then none
    else
      let fifth_line := pystripL (lines.getD 4 [])
      match match_code_line fifth_line with
      | some (code, name) => some (code, pystrip name)
      | none => none

/-- src/main.py lines 59-77, `extract_category_from_title`: test substring
presence of "TP", "TD", "CM" independently (Python `in`, embedded as
`containsSub`), collect the matches in that order, then case on how many
matched. -/
def extract_category_from_title (title : String) : Option String × Bool :=
  if title = "" then (none, false)
  else
    let categories : List String :=
      (if containsSub "TP".data title.data then ["TP"] else []) ++
      (if containsSub "TD".data title.data then ["TD"] else []) ++
      (if containsSub "CM".data title.data then ["CM"] else [])
    match categories with
    | [] => (none, false)
    | [c] => (some c, false)
    | _ => (none, true)

/-- A decoded Python `dtstart.dt` / `dtend.dt` value: either a `date`
(day number, no time-of-day — Python `hasattr(x, 'hour')` is false) or a
`datetime` with wall-clock seconds and, when timezone-aware, a fixed UTC
offset in seconds (`tz = none` models a naive datetime). The absolute
instant of an aware datetime is `wall - offset`. -/
inductive TimeValue where
  | date (day : ℤ)
  | datetime (wall : ℚ) (tz : Option ℤ)
deriving DecidableEq

/-- src/main.py lines 80-97, `calculate_duration_hours`: 0 if either bound
is missing; if the start has a time-of-day, Python computes `end - start`
(raising `TypeError`, modelled as `.error`, when `end` is a `date` or when
exactly one of the two datetimes is timezone-aware) and divides its seconds
by 3600; otherwise it returns 24. Only the start is tested for
time-of-day. -/
def calculate_duration_hours (dtstart dtend : Option TimeValue) : Except String ℚ :=
  match dtstart, dtend with
  | none, _ => .ok 0
  | some _, none => .ok 0
  | some s, some e =>
    match s with
    | .date _ => .ok 24
    | .datetime sw stz =>
      match e with
      | .date _ => .error "TypeError: unsupported operand"
      | .datetime ew etz =>
        match stz, etz with
        | none, none => .ok ((ew - sw) / 3600)
        | some so, some eo => .ok (((ew - eo) - (sw - so)) / 3600)
        | _, _ => .error "TypeError: cannot subtract naive and aware"

/-- Seconds-of-day of Python `datetime.max.time()`, i.e. 23:59:59.999999. -/
def endOfDaySeconds : ℚ := 86399 + 999999 / 1000000

/-- End of calendar day `d` as wall-clock seconds:
`datetime.combine(d, datetime.max.time())` (src/main.py line 152). -/
def endOfDay (d : ℤ) : ℚ := d * 86400 + endOfDaySeconds

/-- src/main.py lines 145-164: the `--done` temporal filter, returning
`true` when the event is skipped (`continue`). With the flag off, or with
no `DTEND`, nothing is skipped. A date-only end is replaced by the end of
that calendar day (naive). An aware end is compared against `now`
reinterpreted as UTC (the subsequent `astimezone` does not change the
instant, and aware comparison is by instant); a naive end is compared
against the naive wall-clock `now` directly. The event is skipped iff the
normalized end is strictly later than the normalized now. -/
def should_skip_event (done : Bool) (dtend : Option TimeValue) (now : ℚ) : Bool :=
  if done then
    match dtend with
    | none => false
    | some e =>
      let end_time : TimeValue :=
        match e with
        | .date d => .datetime (endOfDay d) none
        | t => t
      match end_time with
      | .datetime w none => decide (w > now)
      | .datetime w (some off) => decide (w - off > now)
      | .date _ => false
  else false

/-- The three session categories keyed in `hours_by_code[code]`. -/
inductive Cat where
  | TP
  | TD
  | CM
deriving DecidableEq

/-- The inner dict `{'TP': 0, 'TD': 0, 'CM': 0}` of accumulated hours. -/
structure CatHours where
  tp : ℚ
  td : ℚ
  cm : ℚ
deriving DecidableEq

/-- Fresh inner dict of the defaultdict (src/main.py line 135). -/
def CatHours.zero : CatHours := ⟨0, 0, 0⟩

/-- Python `hours[category] += duration` on the inner dict. -/
def CatHours.add (h : CatHours) (c : Cat) (q : ℚ) : CatHours :=
  match c with
  | .TP => { h with tp := h.tp + q }
  | .TD => { h with td := h.td + q }
  | .CM => { h with cm := h.cm + q }

/-- The dict `hours_by_code` as an association list in insertion order, modelling the
Python dict (distinct keys; first sighting appends at the end). -/
abbrev HoursByCode := List (String × CatHours)

/-- Read `hours_by_code[code]` through the defaultdict: an absent key reads
as the fresh inner dict. -/
def lookupHours : HoursByCode → String → CatHours
  | [], _ => CatHours.zero
  | (k, h) :: rest, code => if k = code then h else lookupHours rest code

/-- src/main.py line 195, `hours_by_code[code][category] += duration`:
update the existing entry in place, or append a fresh entry for a
first-seen code (defaultdict insertion). -/
def record_event (m : HoursByCode) (code : String) (c : Cat) (q : ℚ) : HoursByCode :=
  match m with
  | [] => [(code, CatHours.zero.add c q)]
  | (k, h) :: rest =>
    if k = code then (k, h.add c q) :: rest else (k, h) :: record_event rest code c q

/-- The `code_names` dict (src/main.py line 136), in insertion order. -/
abbrev CodeNames := List (String × String)

/-- Python `code_names.get(code)`: `none` when the key is absent. -/
def lookupName : CodeNames → String → Option String
  | [], _ => none
  | (k, v) :: rest, code => if k = code then some v else lookupName rest code

/-- src/main.py lines 178-180: `if code not in code_names and display_name:
code_names[code] = display_name`. A Python string is truthy iff
non-empty. -/
def update_code_names (names : CodeNames) (code dn : String) : CodeNames :=
  if lookupName names code = none ∧ dn ≠ "" then names ++ [(code, dn)] else names

/-- A decoded VEVENT as the loop reads it: `str(component.get('SUMMARY', ''))`,
`str(component.get('DESCRIPTION', ''))`, and the two optional time bounds. -/
structure CalEvent where
  summary : String
  description : String
  dtstart : Option TimeValue
  dtend : Option TimeValue
deriving DecidableEq

/-- The mutable state of the processing loop (src/main.py lines 134-141). -/
structure LoopState where
  hours_by_code : HoursByCode
  code_names : CodeNames
  errors : List String
  event_count : ℕ
  skipped_future : ℕ
deriving DecidableEq

/-- Initial loop state. -/
def LoopState.init : LoopState := ⟨[], [], [], 0, 0⟩

/-- The category string returned by `extract_category_from_title` used as the
key of the inner hours dict; only "TP", "TD", "CM" ever reach this point. -/
def catOfString (s : String) : Cat :=
  if s = "TP" then .TP else if s = "TD" then .TD else .CM

/-- src/main.py lines 144-195: processing of one VEVENT. In order: the
`--done` temporal filter (`continue` on a future end), the event counter,
code extraction (warning and `continue` on failure), display-name
recording, category extraction (error on ambiguity, warning on absence,
each with `continue`), duration computation (whose `TypeError` would
propagate and abort the run, hence `Except`), and the additive fold into
`hours_by_code`. -/
def process_event (done : Bool) (now : ℚ) (s : LoopState) (e : CalEvent) :
    Except String LoopState :=
  if should_skip_event done e.dtend now then
    .ok { s with skipped_future := s.skipped_future + 1 }
  else
    let s1 := { s with event_count := s.event_count + 1 }
    let title := e.summary
    match extract_code_from_description e.description with
    | none =>
      .ok { s1 with errors :=
        s1.errors ++ ["Warning: Could not extract code from event: " ++ title] }
    | some (code, display_name) =>
      let s2 := { s1 with code_names := update_code_names s1.code_names code display_name }
      match extract_category_from_title title with
      | (_, true) =>
        .ok { s2 with errors :=
          s2.errors ++ ["ERROR: Multiple categories (TP/TD/CM) found in event: " ++ title] }
      | (none, false) =>
        .ok { s2 with errors :=
          s2.errors ++ ["Warning: No category (TP/TD/CM) found in event: " ++ title] }
      | (some cat, false) =>
        match calculate_duration_hours e.dtstart e.dtend with
        | .error msg => .error msg
        | .ok duration =>
          .ok { s2 with hours_by_code :=
            record_event s2.hours_by_code code (catOfString cat) duration }

/-- The whole event loop over the decoded components. -/
def run_events (done : Bool) (now : ℚ) (events : List CalEvent) :
    Except String LoopState :=
  events.foldlM (process_event done now) LoopState.init

/-- Round to the nearest integer, ties to the even integer: the rounding of
Python's `f"{value:.2f}"` on exactly-representable values. -/
def round_half_even (q : ℚ) : ℤ :=
  let f := ⌊q⌋
  if q - f < 1 / 2 then f
  else if q - f > 1 / 2 then f + 1
  else if f % 2 = 0 then f else f + 1

/-- Two-digit zero-padded rendering of `r < 100`. -/
def two_digits (r : ℕ) : String :=
  (if r < 10 then "0" else "") ++ toString r

/-- Python `f"{value:.2f}"`: fixed-point with exactly two decimals. -/
def format_fixed2 (q : ℚ) : String :=
  let n := round_half_even (q * 100)
  let sign := if n < 0 then "-" else ""
  let m := n.natAbs
  sign ++ toString (m / 100) ++ "." ++ two_digits (m % 100)

/-- src/main.py line 103: `f"{value:.2f}".rstrip('0').rstrip('.')` — the
numeric core of `format_number`, before alignment padding. -/
def format_number_trimmed (q : ℚ) : String :=
  pyrstrip (pyrstrip (format_fixed2 q) '0') '.'

/-- Right-justify in a field of `w` characters (`f"{s:>{w}}"`). -/
def padLeft (s : String) (w : ℕ) : String :=
  ⟨List.replicate (w - s.data.length) ' ' ++ s.data⟩

/-- src/main.py lines 100-109, `format_number`: trim, re-pad for decimal
alignment, right-justify. -/
def format_number (value : ℚ) (width : ℕ) : String :=
  let formatted := format_number_trimmed value
  let formatted :=
    if !formatted.data.contains '.' then formatted ++ "   "
    else if ((pySplit '.' formatted.data).getD 1 []).length = 1 then formatted ++ " "
    else formatted
  padLeft formatted width

/-- One row of the final table (src/main.py lines 232-243). -/
structure ReportRow where
  code : String
  label : String
  cm : ℚ
  td : ℚ
  tp : ℚ
  totalHours : ℚ
  totalHETD : ℚ
deriving DecidableEq

/-- The grand-total accumulators (src/main.py lines 225-229). -/
structure GrandTotals where
  cm : ℚ
  td : ℚ
  tp : ℚ
  hours : ℚ
  hetd : ℚ
deriving DecidableEq

/-- The rate `HETD_RATES['TP']` (src/main.py line 218). -/
def HETD_RATE_TP : ℚ := 2 / 3

/-- The rate `HETD_RATES['TD']`. -/
def HETD_RATE_TD : ℚ := 1

/-- The rate `HETD_RATES['CM']`, i.e. `1.5`. -/
def HETD_RATE_CM : ℚ := 3 / 2

/-- The computation of one table row (src/main.py lines 233-243). -/
def make_row (names : CodeNames) (m : HoursByCode) (code : String) : ReportRow :=
  let display_name := (lookupName names code).getD "Unknown"
  let h := lookupHours m code
  let total_hours := h.cm + h.td + h.tp
  let total_hetd := h.cm * HETD_RATE_CM + h.td * HETD_RATE_TD + h.tp * HETD_RATE_TP
  ⟨code, code ++ " - " ++ display_name, h.cm, h.td, h.tp, total_hours, total_hetd⟩

/-- Lexicographic comparison of character lists by code point, the order
Python's `sorted` uses on strings. -/
def lexLeB : List Char → List Char → Bool
  | [], _ => true
  | _ :: _, [] => false
  | a :: as, b :: bs =>
    if a.toNat = b.toNat then lexLeB as bs else decide (a.toNat < b.toNat)

/-- Ascending lexical (code-point) order on strings. -/
def strLe (a b : String) : Prop := lexLeB a.data b.data = true

instance : DecidableRel strLe := fun a b =>
  inferInstanceAs (Decidable (lexLeB a.data b.data = true))

/-- Python `sorted(hours_by_code.keys())` (src/main.py line 232): the keys in
ascending lexical order. -/
def sorted_codes (m : HoursByCode) : List String :=
  (m.map Prod.fst).insertionSort strLe

/-- Folding one row into the grand totals (src/main.py lines 246-250). -/
def GrandTotals.addRow (t : GrandTotals) (r : ReportRow) : GrandTotals :=
  ⟨t.cm + r.cm, t.td + r.td, t.tp + r.tp, t.hours + r.totalHours, t.hetd + r.totalHETD⟩

/-- src/main.py lines 217-257: iterate the codes in sorted order, build each
row, and accumulate the grand totals in the same pass. -/
def finalize (names : CodeNames) (m : HoursByCode) : List ReportRow × GrandTotals :=
  let rows := (sorted_codes m).map (make_row names m)
  (rows, rows.foldl GrandTotals.addRow ⟨0, 0, 0, 0, 0⟩)

/-- Number of `-` characters in a line. -/
def hyphen_count (l : List Char) : ℕ := l.countP (fun c => c = '-')

/-- The SPEC's description of code extraction (spec.md §4.1), for comparison
with `extract_code_from_description`: among the lines from index 4 onward,
select the FIRST line whose hyphen count is 1 or 2 (absent when none
qualifies), trim it, and match it against the code pattern. -/
def extract_code_from_description_spec (description : String) : Option (String × String) :=
  if description = "" then none
  else
    let lines := pySplit '\n' description.data
    if lines.length < 5 then none
    else
      match (lines.drop 4).find? (fun l => hyphen_count l = 1 || hyphen_count l = 2) with
      | none => none
      | some l =>
        match match_code_line (pystripL l) with
        | some (code, name) => some (code, pystrip name)
        | none => none

/-- The SPEC's truth table for category extraction (spec.md §4.1), indexed
by which of "TP", "TD", "CM" occur in the title. -/
def category_spec_table (tp td cm : Bool) : Option String × Bool :=
  match tp, td, cm with
  | false, false, false => (none, false)
  | true, false, false => (some "TP", false)
  | false, true, false => (some "TD", false)
  | false, false, true => (some "CM", false)
  | _, _, _ => (none, true)

/-- The aggregation fold of spec.md §4.4: feed a list of classified
`(code, category, hours)` triples through `record_event` (src/main.py
line 195), starting from the empty dict. -/
def aggregate (l : List (String × Cat × ℚ)) : HoursByCode :=
  l.foldl (fun m e => record_event m e.1 e.2.1 e.2.2) []

/-- Total hours contributed to `(code, c)` by a list of triples. -/
def catSum (code : String) (c : Cat) (l : List (String × Cat × ℚ)) : ℚ :=
  (l.map (fun e => if e.1 = code ∧ e.2.1 = c then e.2.2 else 0)).sum

/-! ### Helper lemmas -/

theorem lexLeB_total (as bs : List Char) :
    lexLeB as bs = true ∨ lexLeB bs as = true := by
  induction as generalizing bs with
  | nil => left; rfl
  | cons a as ih =>
    cases bs with
    | nil => right; rfl
    | cons b bs =>
      by_cases h : a.toNat = b.toNat
      · simp only [lexLeB, if_pos h, if_pos h.symm]
        exact ih bs
      · simp only [lexLeB, if_neg h, if_neg (Ne.symm h), decide_eq_true_iff]
        omega

theorem lexLeB_trans (as bs cs : List Char) (h1 : lexLeB as bs = true)
    (h2 : lexLeB bs cs = true) : lexLeB as cs = true := by
  induction as generalizing bs cs with
  | nil => rfl
  | cons a as ih =>
    cases bs with
    | nil => simp [lexLeB] at h1
    | cons b bs =>
      cases cs with
      | nil => simp [lexLeB] at h2
      | cons c cs =>
        simp only [lexLeB] at h1 h2 ⊢
        by_cases hab : a.toNat = b.toNat
        · rw [if_pos hab] at h1
          by_cases hbc : b.toNat = c.toNat
          · rw [if_pos hbc] at h2
            rw [if_pos (hab.trans hbc)]
            exact ih bs cs h1 h2
          · rw [if_neg hbc, decide_eq_true_iff] at h2
            rw [if_neg (by omega), decide_eq_true_iff]
            omega
        · rw [if_neg hab, decide_eq_true_iff] at h1
          by_cases hbc : b.toNat = c.toNat
          · rw [if_pos hbc] at h2
            rw [if_neg (by omega), decide_eq_true_iff]
            omega
          · rw [if_neg hbc, decide_eq_true_iff] at h2
            rw [if_neg (by omega), decide_eq_true_iff]
            omega

theorem strLe_total (a b : String) : strLe a b ∨ strLe b a :=
  lexLeB_total a.data b.data

theorem strLe_trans (a b c : String) (h1 : strLe a b) (h2 : strLe b c) : strLe a c :=
  lexLeB_trans a.data b.data c.data h1 h2

theorem lookupName_append_some (names : CodeNames) (x : String × String)
    (c v : String) (h : lookupName names c = some v) :
    lookupName (names ++ [x]) c = some v := by
  induction names with
  | nil => simp [lookupName] at h
  | cons kv rest ih =>
    obtain ⟨k, w⟩ := kv
    simp only [lookupName, List.cons_append] at h ⊢
    by_cases hk : k = c
    · rw [if_pos hk] at h ⊢
      exact h
    · rw [if_neg hk] at h ⊢
      exact ih h

theorem lookupName_update_preserved (names : CodeNames) (code dn c v : String)
    (h : lookupName names c = some v) :
    lookupName (update_code_names names code dn) c = some v := by
  unfold update_code_names
  split
  · exact lookupName_append_some names (code, dn) c v h
  · exact h

theorem update_code_names_writes_only_if_unset (names : CodeNames) (code dn : String)
    (h : update_code_names names code dn ≠ names) :
    lookupName names code = none ∧ dn ≠ "" := by
  unfold update_code_names at h
  split at h
  · assumption
  · exact absurd rfl h

theorem lookupHours_record (m : HoursByCode) (k : String) (c : Cat) (q : ℚ)
    (code : String) :
    lookupHours (record_event m k c q) code =
      if k = code then (lookupHours m code).add c q else lookupHours m code := by
  induction m with
  | nil =>
    simp only [record_event, lookupHours]
  | cons kv rest ih =>
    obtain ⟨k', h⟩ := kv
    simp only [record_event]
    by_cases h1 : k' = k <;> by_cases h2 : k = code <;>
      simp_all [lookupHours, record_event]

theorem catSum_cons (code : String) (c : Cat) (e : String × Cat × ℚ)
    (l : List (String × Cat × ℚ)) :
    catSum code c (e :: l) =
      (if e.1 = code ∧ e.2.1 = c then e.2.2 else 0) + catSum code c l := by
  simp [catSum]

theorem lookupHours_foldl (l : List (String × Cat × ℚ)) (m : HoursByCode)
    (code : String) :
    lookupHours (l.foldl (fun m e => record_event m e.1 e.2.1 e.2.2) m) code =
      ⟨(lookupHours m code).tp + catSum code .TP l,
       (lookupHours m code).td + catSum code .TD l,
       (lookupHours m code).cm + catSum code .CM l⟩ := by
  induction l generalizing m with
  | nil => simp [catSum]
  | cons e l ih =>
    rw [List.foldl_cons, ih, lookupHours_record]
    by_cases h : e.1 = code
    · rw [if_pos h]
      cases hc : e.2.1 <;>
        simp [CatHours.add, catSum_cons, h, hc, add_assoc]
    · rw [if_neg h]
      simp [catSum_cons, h]

theorem lookupHours_aggregate (l : List (String × Cat × ℚ)) (code : String) :
    lookupHours (aggregate l) code =
      ⟨catSum code .TP l, catSum code .TD l, catSum code .CM l⟩ := by
  unfold aggregate
  rw [lookupHours_foldl]
  simp [lookupHours, CatHours.zero]

theorem foldl_addRow (rows : List ReportRow) (t : GrandTotals) :
    rows.foldl GrandTotals.addRow t =
      ⟨t.cm + (rows.map ReportRow.cm).sum,
       t.td + (rows.map ReportRow.td).sum,
       t.tp + (rows.map ReportRow.tp).sum,
       t.hours + (rows.map ReportRow.totalHours).sum,
       t.hetd + (rows.map ReportRow.totalHETD).sum⟩ := by
  induction rows generalizing t with
  | nil => simp
  | cons r rows ih =>
    rw [List.foldl_cons, ih]
    simp [GrandTotals.addRow, add_assoc]

theorem make_row_code (names : CodeNames) (m : HoursByCode) (code : String) :
    (make_row names m code).code = code := rfl

theorem process_event_code_names (done : Bool) (now : ℚ) (s : LoopState)
    (e : CalEvent) (s' : LoopState) (h : process_event done now s e = .ok s') :
    s'.code_names = s.code_names ∨
      ∃ code dn, s'.code_names = update_code_names s.code_names code dn := by
  unfold process_event at h
  split at h
  · injection h with h
    subst h
    left
    rfl
  · rcases hc : extract_code_from_description e.description with _ | ⟨code, dn⟩ <;>
      simp only [hc] at h
    · injection h with h
      subst h
      left
      rfl
    · rcases hct : extract_category_from_title e.summary with ⟨o, b⟩
      simp only [hct] at h
      right
      refine ⟨code, dn, ?_⟩
      cases o <;> cases b
      · injection h with h
        subst h
        rfl
      · injection h with h
        subst h
        rfl
      · rcases hd : calculate_duration_hours e.dtstart e.dtend with msg | q <;>
          simp only [hd] at h
        · exact absurd h (by simp)
        · injection h with h
          subst h
          rfl
      · injection h with h
        subst h
        rfl

/-! ### Claim theorems -/

section ClaimTheorems

attribute [local semireducible] Rat.add Rat.sub Rat.mul Rat.inv

/-- C1 counterexample: for a description whose line at index 4 has zero
hyphens while line 5 is `"CS101 - Intro"` (one hyphen, matching the code
pattern), the spec's scan-from-index-4 rule selects line 5 and yields
`CS101`, but the code returns absent: `extract_code_from_description`
never looks past index 4. -/
theorem code_extraction_no_scan_counterexample :
    extract_code_from_description_spec "a\nb\nc\nd\nno hyphens here\nCS101 - Intro" =
      some ("CS101", "Intro") ∧
    extract_code_from_description "a\nb\nc\nd\nno hyphens here\nCS101 - Intro" =
      none := by
  exact ⟨by decide, by decide⟩

/-- C1 (amended): code/name extraction examines only the line at index 4.
For any two nonempty descriptions with at least 5 lines agreeing on the
line at index 4, extraction returns the same result — there is no
hyphen-count scan over later lines, and a qualifying later line is never
used. -/
theorem code_extraction_depends_only_on_line4 (d1 d2 : String)
    (h1 : d1 ≠ "") (h2 : d2 ≠ "")
    (hl1 : 5 ≤ (pySplit '\n' d1.data).length)
    (hl2 : 5 ≤ (pySplit '\n' d2.data).length)
    (hsame : (pySplit '\n' d1.data).getD 4 [] = (pySplit '\n' d2.data).getD 4 []) :
    extract_code_from_description d1 = extract_code_from_description d2 := by
  unfold extract_code_from_description
  rw [if_neg h1, if_neg h2, if_neg (Nat.not_lt.mpr hl1), if_neg (Nat.not_lt.mpr hl2),
    hsame]

/-- Witness for C1 (amended): two descriptions sharing line index 4 but
with different later lines extract identically. -/
theorem code_extraction_depends_only_on_line4_witness :
    extract_code_from_description "a\nb\nc\nd\nCS101 - Intro\nREST1 - Later" =
      extract_code_from_description "z\nz\nz\nz\nCS101 - Intro\nOTHER2 - Line\nmore" :=
  code_extraction_depends_only_on_line4 _ _ (by decide) (by decide) (by decide)
    (by decide) (by decide)

/-- C2 counterexample: with a timed start and a date-only end the code does
NOT return 24 — Python's `end - start` raises `TypeError` (only the start
is tested with `hasattr(start, 'hour')`, src/main.py line 92). -/
theorem duration_mixed_start_timed_end_date_counterexample :
    calculate_duration_hours (some (.datetime 0 none)) (some (.date 0)) =
      .error "TypeError: unsupported operand" ∧
    calculate_duration_hours (some (.datetime 0 none)) (some (.date 0)) ≠
      .ok 24 := by
  refine ⟨rfl, ?_⟩
  intro h
  simp [calculate_duration_hours] at h

/-- C2 (amended): `calculate_duration_hours` returns 0 when either bound is
absent; returns `(end − start)` seconds divided by 3600 when both bounds
are datetimes of the same timezone-awareness (for aware pairs the
difference of absolute instants); returns the constant 24 exactly when the
START lacks time-of-day, regardless of the end; and raises a `TypeError`
(rather than returning 24) when the start is timed and the end is
date-only. -/
theorem duration_hours_cases :
    (∀ o, calculate_duration_hours none o = .ok 0) ∧
    (∀ t, calculate_duration_hours (some t) none = .ok 0) ∧
    (∀ d e, calculate_duration_hours (some (.date d)) (some e) = .ok 24) ∧
    (∀ sw ew, calculate_duration_hours (some (.datetime sw none))
      (some (.datetime ew none)) = .ok ((ew - sw) / 3600)) ∧
    (∀ sw so ew eo, calculate_duration_hours (some (.datetime sw (some so)))
      (some (.datetime ew (some eo))) = .ok (((ew - eo) - (sw - so)) / 3600)) ∧
    (∀ sw tz d, calculate_duration_hours (some (.datetime sw tz))
      (some (.date d)) = .error "TypeError: unsupported operand") := by
  refine ⟨fun o => rfl, fun t => rfl, fun d e => rfl, fun sw ew => rfl,
    fun sw so ew eo => rfl, fun sw tz d => rfl⟩

/-- C4: category extraction is exactly the independent-substring truth
table: zero matches gives (absent, false), exactly one gives (that
category, false), two or more give (absent, true), for every title. -/
theorem category_extraction_truth_table (title : String) :
    extract_category_from_title title =
      category_spec_table (containsSub "TP".data title.data)
        (containsSub "TD".data title.data) (containsSub "CM".data title.data) := by
  by_cases h : title = ""
  · subst h
    decide
  · simp only [extract_category_from_title, if_neg h]
    cases h1 : containsSub "TP".data title.data <;>
    cases h2 : containsSub "TD".data title.data <;>
    cases h3 : containsSub "CM".data title.data <;>
      simp [category_spec_table]

/-- C3 counterexample: the claim's rule "excluded iff end-of-day ≤ now"
fails in both directions. With day-0's end-of-day ≤ now = 129600 (noon of
day 1) the event is NOT excluded (it is retained as past); with
now = 43200 (noon of day 0), day-0's end-of-day is NOT ≤ now yet the event
IS excluded (skipped as future) — so a date-only event ending "today" is
not past. -/
theorem past_filter_direction_counterexample :
    (endOfDay 0 ≤ 129600 ∧
      should_skip_event true (some (.date 0)) 129600 = false) ∧
    (¬ endOfDay 0 ≤ 43200 ∧
      should_skip_event true (some (.date 0)) 43200 = true) := by
  decide

/-- C3 (amended): in past-only mode a date-only end time is treated as
23:59:59.999999 of that calendar day, and the event is EXCLUDED iff that
instant is strictly greater than 'now' (equivalently, retained iff that
instant ≤ now). Hence a date-only event whose end date is yesterday is
past (retained), while one whose end date is today is excluded as still
future at every 'now' before that day's final microsecond. -/
theorem past_filter_date_only_semantics (d : ℤ) (now : ℚ) :
    (should_skip_event true (some (.date d)) now = false ↔ endOfDay d ≤ now) ∧
    (now < endOfDay d → should_skip_event true (some (.date d)) now = true) := by
  unfold should_skip_event
  simp [not_lt]

/-- Witness for C3 (amended): a date-only event ending on day 0 is retained
once now is noon of day 1, and excluded while now is noon of day 0. -/
theorem past_filter_date_only_semantics_witness :
    should_skip_event true (some (.date 0)) 129600 = false ∧
    should_skip_event true (some (.date 0)) 43200 = true :=
  ⟨(past_filter_date_only_semantics 0 129600).1.mpr (by decide),
   (past_filter_date_only_semantics 0 43200).2 (by decide)⟩

/-- C7: the numeric core of `format_number` renders with two decimals,
rounds (4.999 becomes "5", not a truncated "4.99"), then trims trailing
zeros and a bare decimal point: 4 ↦ "4", 4.5 ↦ "4.5", 4.333 ↦ "4.33". -/
theorem format_number_rounds_then_trims :
    format_number_trimmed 4 = "4" ∧
    format_number_trimmed (9 / 2) = "4.5" ∧
    format_number_trimmed (4333 / 1000) = "4.33" ∧
    format_number_trimmed (4999 / 1000) = "5" := by
  decide

/-- C5: finalization lists exactly the accumulated codes, in ascending
lexical (code-point) order; every row satisfies
totalHours = cm + td + tp and totalHETD = cm·1.5 + td·1 + tp·(2/3); and
the grand totals accumulated in the same pass equal the column sums over
all rows. -/
theorem finalize_sorted_rows_and_totals (names : CodeNames) (m : HoursByCode) :
    List.Sorted strLe ((finalize names m).1.map ReportRow.code) ∧
    ((finalize names m).1.map ReportRow.code).Perm (m.map Prod.fst) ∧
    (∀ r ∈ (finalize names m).1,
      r.totalHours = r.cm + r.td + r.tp ∧
      r.totalHETD = r.cm * (3 / 2) + r.td * 1 + r.tp * (2 / 3)) ∧
    (finalize names m).2.cm = ((finalize names m).1.map ReportRow.cm).sum ∧
    (finalize names m).2.td = ((finalize names m).1.map ReportRow.td).sum ∧
    (finalize names m).2.tp = ((finalize names m).1.map ReportRow.tp).sum ∧
    (finalize names m).2.hours = ((finalize names m).1.map ReportRow.totalHours).sum ∧
    (finalize names m).2.hetd = ((finalize names m).1.map ReportRow.totalHETD).sum := by
  have hmap : (finalize names m).1.map ReportRow.code = sorted_codes m := by
    simp only [finalize, List.map_map]
    simp [Function.comp_def, make_row_code]
  refine ⟨?_, ?_, ?_, ?_, ?_, ?_, ?_, ?_⟩
  · rw [hmap]
    unfold sorted_codes
    letI : IsTotal String strLe := ⟨strLe_total⟩
    letI : IsTrans String strLe := ⟨strLe_trans⟩
    exact List.sorted_insertionSort strLe (m.map Prod.fst)
  · rw [hmap]
    exact List.perm_insertionSort strLe (m.map Prod.fst)
  · intro r hr
    simp only [finalize, List.mem_map] at hr
    obtain ⟨c, _, hc⟩ := hr
    subst hc
    exact ⟨rfl, rfl⟩
  · simp only [finalize, foldl_addRow]
    simp
  · simp only [finalize, foldl_addRow]
    simp
  · simp only [finalize, foldl_addRow]
    simp
  · simp only [finalize, foldl_addRow]
    simp
  · simp only [finalize, foldl_addRow]
    simp

/-- C6: aggregation is order-independent — permuting the multiset of
classified (code, category, hours) triples leaves every per-code,
per-category accumulated total unchanged. -/
theorem aggregation_order_independent (l1 l2 : List (String × Cat × ℚ))
    (h : l1.Perm l2) (code : String) :
    lookupHours (aggregate l1) code = lookupHours (aggregate l2) code := by
  rw [lookupHours_aggregate, lookupHours_aggregate]
  have hs : ∀ c : Cat, catSum code c l1 = catSum code c l2 := fun c =>
    List.Perm.sum_eq (List.Perm.map _ h)
  rw [hs Cat.TP, hs Cat.TD, hs Cat.CM]

/-- Witness for C6: swapping two events of the same code leaves its
accumulated hours unchanged. -/
theorem aggregation_order_independent_witness :
    lookupHours (aggregate [("A", Cat.TP, 1), ("A", Cat.CM, 2)]) "A" =
      lookupHours (aggregate [("A", Cat.CM, 2), ("A", Cat.TP, 1)]) "A" :=
  aggregation_order_independent _ _ (List.Perm.swap _ _ _) "A"

/-- C8: an event with no DTEND is never excluded by the temporal filter, in
any mode: the filter test is false, processing succeeds, the
skipped-future counter is untouched, and the event is counted as
processed. -/
theorem no_dtend_never_filtered (done : Bool) (now : ℚ) (s : LoopState)
    (e : CalEvent) (h : e.dtend = none) :
    should_skip_event done e.dtend now = false ∧
    ∃ s', process_event done now s e = .ok s' ∧
      s'.skipped_future = s.skipped_future ∧
      s'.event_count = s.event_count + 1 := by
  have hskip : should_skip_event done e.dtend now = false := by
    rw [h]
    cases done <;> rfl
  refine ⟨hskip, ?_⟩
  unfold process_event
  rw [hskip]
  simp only [Bool.false_eq_true, if_false]
  rcases hc : extract_code_from_description e.description with _ | ⟨code, dn⟩
  · exact ⟨_, rfl, rfl, rfl⟩
  · rcases hct : extract_category_from_title e.summary with ⟨o, b⟩
    cases o <;> cases b
    · exact ⟨_, rfl, rfl, rfl⟩
    · exact ⟨_, rfl, rfl, rfl⟩
    · rw [h]
      rcases hds : e.dtstart with _ | t
      · exact ⟨_, rfl, rfl, rfl⟩
      · exact ⟨_, rfl, rfl, rfl⟩
    · exact ⟨_, rfl, rfl, rfl⟩

/-- Witness for C8: a DTEND-less event passes the filter even in past-only
mode and is processed. -/
theorem no_dtend_never_filtered_witness :
    should_skip_event true (CalEvent.dtend ⟨"t", "", none, none⟩) 0 = false ∧
    ∃ s', process_event true 0 LoopState.init ⟨"t", "", none, none⟩ = .ok s' ∧
      s'.skipped_future = LoopState.init.skipped_future ∧
      s'.event_count = LoopState.init.event_count + 1 :=
  no_dtend_never_filtered true 0 LoopState.init ⟨"t", "", none, none⟩ rfl

/-- C9: a code's display name, once stored, survives the processing of any
further event (first-seen non-empty name wins), and `code_names` is ever
written only when the key is still unset and the incoming name is
non-empty. -/
theorem display_name_first_seen_wins (done : Bool) (now : ℚ) (s : LoopState)
    (e : CalEvent) (s' : LoopState)
    (hrun : process_event done now s e = .ok s') (c v : String)
    (h : lookupName s.code_names c = some v) :
    lookupName s'.code_names c = some v ∧
    (∀ names code dn, update_code_names names code dn ≠ names →
      lookupName names code = none ∧ dn ≠ "") := by
  refine ⟨?_, update_code_names_writes_only_if_unset⟩
  rcases process_event_code_names done now s e s' hrun with heq | ⟨code, dn, heq⟩
  · rw [heq]
    exact h
  · rw [heq]
    exact lookupName_update_preserved s.code_names code dn c v h

/-- Witness for C9: a later event of code "A" carrying the name "Second"
leaves the stored name "First" untouched. -/
theorem display_name_first_seen_wins_witness :
    lookupName (LoopState.code_names
      ⟨[], [("A", "First")],
        ["Warning: No category (TP/TD/CM) found in event: nothing here"], 1, 0⟩)
      "A" = some "First" ∧
    (∀ names code dn, update_code_names names code dn ≠ names →
      lookupName names code = none ∧ dn ≠ "") :=
  display_name_first_seen_wins false 0 ⟨[], [("A", "First")], [], 0, 0⟩
    ⟨"nothing here", "x\nx\nx\nx\nA - Second", none, none⟩ _ rfl "A" "First" rfl

/-- C10: when code extraction succeeds on an unfiltered event, the display
name is recorded (through the first-seen rule) even when category
extraction then fails (missing or ambiguous category) and the event is
excluded from aggregation — the hours dict is untouched but `code_names`
is updated, so such an event can still determine the code's reported
name. -/
theorem display_name_recorded_before_category (done : Bool) (now : ℚ)
    (s : LoopState) (e : CalEvent) (code dn : String)
    (hskip : should_skip_event done e.dtend now = false)
    (hcode : extract_code_from_description e.description = some (code, dn))
    (hcat : (extract_category_from_title e.summary).1 = none) :
    ∃ s', process_event done now s e = .ok s' ∧
      s'.code_names = update_code_names s.code_names code dn ∧
      s'.hours_by_code = s.hours_by_code := by
  unfold process_event
  rw [hskip]
  simp only [Bool.false_eq_true, if_false, hcode]
  rcases hct : extract_category_from_title e.summary with ⟨o, b⟩
  rw [hct] at hcat
  have ho : o = none := hcat
  subst ho
  cases b
  · exact ⟨_, rfl, rfl, rfl⟩
  · exact ⟨_, rfl, rfl, rfl⟩

/-- Witness for C10: an event with an ambiguous title ("TP TD mixed") is
kept out of the hours dict, yet its code's display name is recorded. -/
theorem display_name_recorded_before_category_witness :
    ∃ s', process_event false 0 LoopState.init
        ⟨"TP TD mixed", "x\nx\nx\nx\nMAT200 - Analysis", none, none⟩ = .ok s' ∧
      s'.code_names =
        update_code_names LoopState.init.code_names "MAT200" "Analysis" ∧
      s'.hours_by_code = LoopState.init.hours_by_code :=
  display_name_recorded_before_category false 0 LoopState.init
    ⟨"TP TD mixed", "x\nx\nx\nx\nMAT200 - Analysis", none, none⟩ "MAT200" "Analysis"
    rfl (by decide) (by decide)

end ClaimTheorems
